import Mathlib

/-!
Verification of the RBAC user-management module
(`couchbase/management/users.py`): a shallow embedding of the data model
(roles, users, groups, user metadata), the option-composition protocol and
the error-classification rules, together with theorems settling the spec's
claims about them.

Python dictionaries are embedded as association lists `List (String × PyVal)`
with first-match lookup; Python's mutable set objects are embedded as
references (`PyVal.ref`) into an explicit `Heap`, so that aliasing and
mutation can be reasoned about.
-/

set_option autoImplicit false
set_option maxHeartbeats 1000000

namespace CbUsers

/-- Shallow embedding of the Python values handled by the module. `pnone` is
Python's `None`; `ref a` is a reference to a mutable set object stored at
address `a` of a `Heap`. -/
inductive PyVal where
  | pnone
  | str (s : String)
  | num (n : Int)
  | ref (a : Nat)
  | list (xs : List PyVal)
  | dict (kvs : List (String × PyVal))

mutual

/-- Structural equality on embedded Python values, the embedding of Python's
`==` on the value shapes used by this module. -/
def pyBeq : PyVal → PyVal → Bool
  | .pnone, .pnone => true
  | .str a, .str b => a == b
  | .num a, .num b => a == b
  | .ref a, .ref b => a == b
  | .list xs, .list ys => pyBeqList xs ys
  | .dict xs, .dict ys => pyBeqDict xs ys
  | _, _ => false

/-- Structural equality on embedded Python lists. -/
def pyBeqList : List PyVal → List PyVal → Bool
  | [], [] => true
  | x :: xs, y :: ys => pyBeq x y && pyBeqList xs ys
  | _, _ => false

/-- Structural equality on embedded Python dictionaries. -/
def pyBeqDict : List (String × PyVal) → List (String × PyVal) → Bool
  | [], [] => true
  | (k, x) :: xs, (k', y) :: ys => k == k' && (pyBeq x y && pyBeqDict xs ys)
  | _, _ => false

end

/-- First-match lookup in an association list, the embedding of Python's
`d.get(k)` returning `none` when the key is absent. -/
def dlookup (k : String) : List (String × PyVal) → Option PyVal
  | [] => none
  | kv :: rest => if kv.1 = k then some kv.2 else dlookup k rest

/-- Key list of an embedded dictionary. -/
def dkeys (m : List (String × PyVal)) : List String :=
  m.map Prod.fst

/-- Embedding of Python's `d[k] = v`: replace the value at an existing key in
place, otherwise append the new binding. -/
def dset (m : List (String × PyVal)) (k : String) (v : PyVal) :
    List (String × PyVal) :=
  if k ∈ dkeys m then
    m.map (fun kv => if kv.1 = k then (kv.1, v) else kv)
  else
    m ++ [(k, v)]

theorem dlookup_eq_none_iff (k : String) (m : List (String × PyVal)) :
    dlookup k m = none ↔ k ∉ dkeys m := by
  induction m with
  | nil => simp [dlookup, dkeys]
  | cons kv rest ih =>
    simp only [dlookup, dkeys, List.map_cons, List.mem_cons]
    split
    · simp_all
    · simp only [ih, dkeys]
      constructor
      · rintro h (h1 | h2)
        · simp_all
        · exact h h2
      · intro h
        exact fun h2 => h (Or.inr h2)

theorem dlookup_isSome_iff (k : String) (m : List (String × PyVal)) :
    (dlookup k m).isSome = true ↔ k ∈ dkeys m := by
  rw [Option.isSome_iff_ne_none, ne_eq, dlookup_eq_none_iff, not_not]

theorem dkeys_dset (m : List (String × PyVal)) (k : String) (v : PyVal) :
    dkeys (dset m k v) = if k ∈ dkeys m then dkeys m else dkeys m ++ [k] := by
  unfold dset
  split <;> rename_i h
  · simp only [if_pos h, dkeys, List.map_map]
    congr 1
    funext kv
    by_cases hk : kv.1 = k <;> simp [Function.comp, hk]
  · simp [if_neg h, dkeys]

theorem mem_dkeys_dset (m : List (String × PyVal)) (k : String) (v : PyVal) :
    k ∈ dkeys (dset m k v) := by
  rw [dkeys_dset]
  split <;> simp_all

/-- A structured role: permission name plus optional bucket scope. Embedding
of `RawRole` (source line 303); `bucket = none` is the wire-absent `None`
default installed by `Role.defaults` (source line 314). -/
structure RawRole where
  name : String
  bucket : Option String
  deriving DecidableEq

/-- Modelled from the spec: `Admin._role_to_str` (the target of `Role.__str__`,
source line 334) lives in `couchbase/management/admin.py`, which is not among
this module's sources. Spec §4.2: encoding returns `name` when `bucket` is
absent, else `name[bucket]`. -/
def roleToStr (r : RawRole) : String :=
  match r.bucket with
  | none => r.name
  | some b => r.name ++ "[" ++ b ++ "]"

/-- Modelled from the spec: the string-splitting half of `Admin._str_to_role`
(called by `Role.decode`, source line 339) is not among this module's sources.
Spec §4.2: text outside a trailing bracket group is the role name, text inside
it is the bucket; a string without a trailing bracket group is a bare name. -/
def splitRoleChars (cs : List Char) : List Char × Option (List Char) :=
  if cs.getLast? = some ']' ∧ '[' ∈ cs then
    (cs.takeWhile (fun c => c ≠ '['),
     some (((cs.dropWhile (fun c => c ≠ '[')).tail).dropLast))
  else (cs, none)

/-- Modelled from the spec: `Admin._str_to_role` yields a dictionary carrying
the `role` key and, for bucket-scoped roles, the `bucket` key. -/
def strToRole (s : String) : List (String × PyVal) :=
  match splitRoleChars s.toList with
  | (n, none) => [("role", .str (String.mk n))]
  | (n, some b) => [("role", .str (String.mk n)), ("bucket", .str (String.mk b))]

/-- Builder shared by the branches of `Role.decode`: `RawRole(*args)` applied
to the `role` and `bucket` positions; ill-typed argument shapes (which the
dynamically typed source would pass through unchecked) decode to `none`. -/
def roleOfPair (n b : PyVal) : Option RawRole :=
  match n, b with
  | .str name, .pnone => some ⟨name, none⟩
  | .str name, .str bucket => some ⟨name, some bucket⟩
  | _, _ => none

/-- Embedding of `Role.decode` (source lines 336-344): a string is first split
into a `role`/`bucket` dictionary by the bracket grammar; a dictionary
contributes its `role` and `bucket` entries positionally via `param.get`; a
two-element positional sequence is used as is. -/
def Role.decode (param : PyVal) : Option RawRole :=
  match param with
  | .str s =>
      let d := strToRole s
      roleOfPair ((dlookup "role" d).getD .pnone) ((dlookup "bucket" d).getD .pnone)
  | .dict d =>
      roleOfPair ((dlookup "role" d).getD .pnone) ((dlookup "bucket" d).getD .pnone)
  | .list [n, b] => roleOfPair n b
  | _ => none

theorem takeWhile_append_brack (name rest : List Char) (h : '[' ∉ name) :
    (name ++ '[' :: rest).takeWhile (fun c => c ≠ '[') = name := by
  induction name with
  | nil => simp [List.takeWhile]
  | cons c cs ih =>
    simp only [List.mem_cons, not_or] at h
    simp only [List.cons_append, List.takeWhile_cons]
    rw [if_pos (by simpa using Ne.symm h.1), ih h.2]

theorem dropWhile_append_brack (name rest : List Char) (h : '[' ∉ name) :
    (name ++ '[' :: rest).dropWhile (fun c => c ≠ '[') = '[' :: rest := by
  induction name with
  | nil => simp [List.dropWhile]
  | cons c cs ih =>
    simp only [List.mem_cons, not_or] at h
    simp only [List.cons_append, List.dropWhile_cons]
    rw [if_pos (by simpa using Ne.symm h.1)]
    exact ih h.2

/-- C1 counterexample: the round-trip law fails as universally stated. For the
unscoped role named `a[b]`, the string encoding is `a[b]`, which the bracket
grammar of `Role.decode` re-parses as the bucket-scoped role `a` on bucket
`b`, a different role. -/
theorem role_decode_encode_cex :
    Role.decode (.str (roleToStr ⟨"a[b]", none⟩)) = some ⟨"a", some "b"⟩
    ∧ RawRole.mk "a" (some "b") ≠ ⟨"a[b]", none⟩ :=
  ⟨by decide, by decide⟩

/-- C1 (amended): for every role whose name does not contain the character
`[`, decoding the string encoding yields the same role — for bucket-scoped and
unscoped roles alike, and for arbitrary bucket names, including ones with
characters requiring percent-encoding. -/
theorem role_decode_encode_roundtrip (name : String) (bucket : Option String)
    (h : '[' ∉ name.toList) :
    Role.decode (.str (roleToStr ⟨name, bucket⟩)) = some ⟨name, bucket⟩ := by
  cases bucket with
  | none =>
      have hcond : ¬((roleToStr ⟨name, none⟩).toList.getLast? = some ']'
          ∧ '[' ∈ (roleToStr ⟨name, none⟩).toList) := by
        simp only [roleToStr]
        exact fun hc => h hc.2
      have hsplit : splitRoleChars ((roleToStr ⟨name, none⟩).toList)
          = ((roleToStr ⟨name, none⟩).toList, none) := by
        unfold splitRoleChars
        rw [if_neg hcond]
      simp only [Role.decode, strToRole, hsplit]
      simp only [dlookup, roleOfPair]
      norm_num
      rfl
  | some b =>
      have hlist : (roleToStr ⟨name, some b⟩).toList
          = name.toList ++ '[' :: (b.toList ++ [']']) := by
        simp [roleToStr, String.toList, String.data_append]
      have hcond : ((name.toList ++ '[' :: (b.toList ++ [']'])).getLast? = some ']'
          ∧ '[' ∈ (name.toList ++ '[' :: (b.toList ++ [']']))) := by
        constructor
        · rw [show name.toList ++ '[' :: (b.toList ++ [']'])
              = (name.toList ++ '[' :: b.toList) ++ [']'] by simp]
          exact List.getLast?_concat _
        · simp
      have hsplit : splitRoleChars ((roleToStr ⟨name, some b⟩).toList)
          = (name.toList, some b.toList) := by
        rw [hlist]
        unfold splitRoleChars
        rw [if_pos hcond, takeWhile_append_brack _ _ h, dropWhile_append_brack _ _ h]
        simp [List.dropLast_concat]
      simp only [Role.decode, strToRole, hsplit]
      simp only [dlookup, roleOfPair]
      norm_num
      rfl

/-- C1 witness: the amended round-trip law at a concrete bucket-scoped role
whose bucket name contains a space and a percent sign. -/
theorem role_decode_encode_roundtrip_witness :
    '[' ∉ "bucket_full_access".toList
    ∧ Role.decode (.str (roleToStr ⟨"bucket_full_access", some "my bucket%"⟩))
      = some ⟨"bucket_full_access", some "my bucket%"⟩ :=
  ⟨by decide, role_decode_encode_roundtrip "bucket_full_access" (some "my bucket%") (by decide)⟩

/-- Embedding of `User` (source lines 430-473): a mutable value object whose
state is exactly the keyword dictionary `raw_data` captured at construction
(source lines 435-436); only keys the caller passed are present. -/
structure User where
  raw_data : List (String × PyVal)

/-- Embedding of the `User.username` property (source lines 438-441). -/
def User.username (u : User) : Option PyVal :=
  dlookup "username" u.raw_data

/-- Embedding of the `User.display_name` property exactly as written in the
source (lines 443-446): the property body reads the `username` key of the raw
data, not a `display_name` key. -/
def User.display_name (u : User) : Option PyVal :=
  dlookup "username" u.raw_data

/-- Embedding of the `User.password` setter (source lines 467-469). -/
def User.setPassword (u : User) (v : PyVal) : User :=
  ⟨dset u.raw_data "password" v⟩

/-- Embedding of the `User.as_dict` property (source lines 471-473): the raw
data dictionary itself. -/
def User.as_dict (u : User) : List (String × PyVal) :=
  u.raw_data

/-- The key whitelist of `UserManager.upsert_user` (source line 141). -/
def upsertUserKeys : List String :=
  ["password", "roles", "name", "timeout"]

/-- Embedding of the parameter set `final_opts` built by
`UserManager.upsert_user` (source line 141) and handed as keyword arguments to
the transport's `user_upsert` (source line 142). -/
def upsertUserFinalOpts (u : User) : List (String × PyVal) :=
  u.as_dict.filter (fun kv => kv.1 ∈ upsertUserKeys)

theorem mem_dkeys_filterKeys (p : String → Bool) (m : List (String × PyVal))
    (k : String) :
    k ∈ dkeys (m.filter (fun kv => p kv.1)) ↔ (k ∈ dkeys m ∧ p k = true) := by
  simp only [dkeys, List.mem_map, List.mem_filter]
  constructor
  · rintro ⟨kv, ⟨hm, hp⟩, rfl⟩
    exact ⟨⟨kv, hm, rfl⟩, hp⟩
  · rintro ⟨⟨kv, hm, rfl⟩, hp⟩
    exact ⟨kv, ⟨hm, hp⟩, rfl⟩

/-- C2: the parameter set sent to the transport by `upsert_user` holds exactly
the keys of the user's raw data lying in the whitelist
`password, roles, name, timeout`; the `password` key is absent whenever it was
never set on the user, it is present after `password` is explicitly set to the
empty string, and a `groups` parameter is never sent. -/
theorem upsert_user_param_keys (u : User) :
    (∀ k, k ∈ dkeys (upsertUserFinalOpts u)
        ↔ (k ∈ dkeys u.raw_data ∧ k ∈ upsertUserKeys))
    ∧ ("password" ∉ dkeys u.raw_data
        → "password" ∉ dkeys (upsertUserFinalOpts u))
    ∧ "password" ∈ dkeys (upsertUserFinalOpts (u.setPassword (.str "")))
    ∧ "groups" ∉ dkeys (upsertUserFinalOpts u) := by
  have hmem : ∀ (w : User) (k : String),
      k ∈ dkeys (upsertUserFinalOpts w)
        ↔ (k ∈ dkeys w.raw_data ∧ k ∈ upsertUserKeys) := by
    intro w k
    rw [upsertUserFinalOpts, User.as_dict,
      mem_dkeys_filterKeys (fun s => decide (s ∈ upsertUserKeys))]
    simp
  refine ⟨hmem u, ?_, ?_, ?_⟩
  · intro hnot hmem2
    exact hnot ((hmem u "password").mp hmem2).1
  · exact (hmem _ "password").mpr ⟨mem_dkeys_dset _ _ _, by simp [upsertUserKeys]⟩
  · intro hmem2
    have := ((hmem u "groups").mp hmem2).2
    simp [upsertUserKeys] at this

/-- C2 witness: the key-filtering law at a concrete user that was built
without a password, then explicitly given the empty-string password. -/
theorem upsert_user_param_keys_witness :
    "password" ∉ dkeys [("username", PyVal.str "alice")]
    ∧ "password" ∉ dkeys (upsertUserFinalOpts ⟨[("username", PyVal.str "alice")]⟩)
    ∧ "password" ∈ dkeys (upsertUserFinalOpts
        (User.setPassword ⟨[("username", PyVal.str "alice")]⟩ (.str "")))
    ∧ "groups" ∉ dkeys (upsertUserFinalOpts
        ⟨[("username", PyVal.str "alice"), ("groups", PyVal.list [])]⟩) :=
  ⟨by decide,
   (upsert_user_param_keys ⟨[("username", PyVal.str "alice")]⟩).2.1 (by decide),
   (upsert_user_param_keys ⟨[("username", PyVal.str "alice")]⟩).2.2.1,
   (upsert_user_param_keys
     ⟨[("username", PyVal.str "alice"), ("groups", PyVal.list [])]⟩).2.2.2⟩

/-- C9: code-bug demonstration. For the user constructed with
`username = "alice"` and `display_name = "Alice Smith"`, the `username`
property yields `"alice"` as claimed, but the `display_name` property also
yields `"alice"`: its body (source line 446) reads the `username` key, so the
display name is not a field of its own as the claim states. -/
theorem display_name_reads_username_bug :
    User.username ⟨[("username", PyVal.str "alice"),
        ("display_name", PyVal.str "Alice Smith")]⟩ = some (.str "alice")
    ∧ User.display_name ⟨[("username", PyVal.str "alice"),
        ("display_name", PyVal.str "Alice Smith")]⟩ = some (.str "alice")
    ∧ User.display_name ⟨[("username", PyVal.str "alice"),
        ("display_name", PyVal.str "Alice Smith")]⟩
      ≠ some (.str "Alice Smith") := by
  refine ⟨rfl, rfl, ?_⟩
  intro h
  rw [show User.display_name ⟨[("username", PyVal.str "alice"),
      ("display_name", PyVal.str "Alice Smith")]⟩ = some (.str "alice") from rfl] at h
  have h1 : PyVal.str "alice" = PyVal.str "Alice Smith" := by injection h
  have h2 : "alice" = "Alice Smith" := by injection h1
  exact absurd h2 (by decide)

/-- A heap of Python set objects: `ref a` denotes the mutable set stored at
position `a`, kept as its elements in insertion order. -/
structure Heap where
  sets : List (List PyVal)

/-- Contents of the set object at address `a`; a dangling address reads
empty. -/
def readRef (h : Heap) (a : Nat) : List PyVal :=
  (h.sets[a]?).getD []

/-- Overwrite the set object at address `a`. -/
def writeRef (h : Heap) (a : Nat) (s : List PyVal) : Heap :=
  ⟨h.sets.set a s⟩

/-- Embedding of Python's `set.add` on the set object at address `a`: append
the element unless an equal one is already present. -/
def setAdd (h : Heap) (a : Nat) (v : PyVal) : Heap :=
  if (readRef h a).any (fun w => pyBeq w v) then h
  else writeRef h a (readRef h a ++ [v])

/-- Allocate a fresh set object with the given contents, returning the grown
heap and the fresh address. -/
def allocSet (h : Heap) (contents : List PyVal) : Heap × Nat :=
  (⟨h.sets ++ [contents]⟩, h.sets.length)

/-- Contents denoted by a value that is a set reference; a non-reference value
denotes no set and reads empty. -/
def readSetVal (h : Heap) (v : PyVal) : List PyVal :=
  match v with
  | .ref a => readRef h a
  | _ => []

/-- Embedding of the `User.groups` property (source lines 448-452):
`set(self._raw_data.get('groups', []))` builds a brand-new set object from the
stored value (a set reference or a literal list), defaulting to empty when the
key is absent; the result is the heap extended with the fresh object, plus the
fresh object's address. -/
def User.groupsProp (h : Heap) (u : User) : Heap × Nat :=
  allocSet h (match dlookup "groups" u.raw_data with
    | some (.ref a) => readRef h a
    | some (.list xs) => xs
    | _ => [])

/-- Embedding of the `User.roles` property (source lines 454-458): it returns
the stored `roles` value itself (`self._raw_data.get('roles')`), performing no
copy; an absent key yields Python's `None`. -/
def User.roles (u : User) : PyVal :=
  (dlookup "roles" u.raw_data).getD .pnone

theorem readRef_allocSet_old (h : Heap) (c : List PyVal) (a : Nat)
    (ha : a < h.sets.length) :
    readRef (allocSet h c).1 a = readRef h a := by
  simp only [readRef, allocSet]
  rw [List.getElem?_append]
  simp [ha]

theorem readRef_allocSet_new (h : Heap) (c : List PyVal) :
    readRef (allocSet h c).1 (allocSet h c).2 = c := by
  simp [readRef, allocSet, List.getElem?_concat_length]

theorem readRef_setAdd_ne (h : Heap) (b : Nat) (v : PyVal) (a : Nat)
    (hab : b ≠ a) :
    readRef (setAdd h b v) a = readRef h a := by
  unfold setAdd
  split
  · rfl
  · simp only [readRef, writeRef]
    rw [List.getElem?_set_ne hab]

theorem readRef_setAdd_self (h : Heap) (a : Nat) (v : PyVal)
    (ha : a < h.sets.length)
    (hv : (readRef h a).any (fun w => pyBeq w v) = false) :
    readRef (setAdd h a v) a = readRef h a ++ [v] := by
  unfold setAdd
  rw [if_neg (by simp [hv])]
  simp [readRef, writeRef, List.getElem?_set_self, ha]

theorem setAdd_sets_length (h : Heap) (a : Nat) (v : PyVal) :
    (setAdd h a v).sets.length = h.sets.length := by
  unfold setAdd
  split
  · rfl
  · simp [writeRef]

/-- C10: each access to `u.groups` builds a fresh set object — its address is
distinct from the stored one, adding to it leaves the stored set and every
later `u.groups` read unchanged, and a user built without groups reads the
empty set — whereas `u.roles` returns the stored roles object itself, so an
add performed through the returned value is visible on the next `u.roles`
read. -/
theorem user_groups_fresh_roles_shared :
    (∀ (h : Heap) (u : User) (a : Nat),
      dlookup "groups" u.raw_data = some (.ref a) → a < h.sets.length →
        (u.groupsProp h).2 ≠ a
        ∧ readRef (u.groupsProp h).1 (u.groupsProp h).2 = readRef h a
        ∧ (∀ v, readRef (setAdd (u.groupsProp h).1 (u.groupsProp h).2 v) a
            = readRef h a)
        ∧ (∀ v, readRef
            (u.groupsProp (setAdd (u.groupsProp h).1 (u.groupsProp h).2 v)).1
            (u.groupsProp (setAdd (u.groupsProp h).1 (u.groupsProp h).2 v)).2
            = readRef h a))
    ∧ (∀ (h : Heap) (u : User),
        dlookup "groups" u.raw_data = none →
          readRef (u.groupsProp h).1 (u.groupsProp h).2 = [])
    ∧ (∀ (h : Heap) (u : User) (a : Nat) (v : PyVal),
        dlookup "roles" u.raw_data = some (.ref a) → a < h.sets.length →
        (readRef h a).any (fun w => pyBeq w v) = false →
          User.roles u = .ref a
          ∧ readSetVal (setAdd h a v) (User.roles u) = readRef h a ++ [v]) := by
  refine ⟨?_, ?_, ?_⟩
  · intro h u a hg ha
    have hcontents : (u.groupsProp h) = allocSet h (readRef h a) := by
      simp [User.groupsProp, hg]
    have hne : (u.groupsProp h).2 ≠ a := by
      rw [hcontents]
      exact Nat.ne_of_gt ha
    refine ⟨hne, ?_, ?_, ?_⟩
    · rw [hcontents, readRef_allocSet_new]
    · intro v
      rw [readRef_setAdd_ne _ _ _ _ hne]
      rw [hcontents, readRef_allocSet_old _ _ _ ha]
    · intro v
      have hg2 : (u.groupsProp (setAdd (u.groupsProp h).1 (u.groupsProp h).2 v))
          = allocSet (setAdd (u.groupsProp h).1 (u.groupsProp h).2 v)
              (readRef (setAdd (u.groupsProp h).1 (u.groupsProp h).2 v) a) := by
        simp [User.groupsProp, hg]
      rw [hg2, readRef_allocSet_new, readRef_setAdd_ne _ _ _ _ hne,
        hcontents, readRef_allocSet_old _ _ _ ha]
  · intro h u hg
    have : (u.groupsProp h) = allocSet h [] := by
      simp [User.groupsProp, hg]
    rw [this, readRef_allocSet_new]
  · intro h u a v hr ha hv
    have hroles : User.roles u = .ref a := by
      simp [User.roles, hr]
    refine ⟨hroles, ?_⟩
    rw [hroles]
    exact readRef_setAdd_self h a v ha hv

/-- C10 witness: the freshness, default and sharing laws at a concrete user
holding the groups set at address 0 and the roles set at address 1 of a
two-object heap. -/
theorem user_groups_fresh_roles_shared_witness :
    ((User.groupsProp ⟨[[PyVal.str "g1"], [PyVal.str "admin"]]⟩
        ⟨[("groups", PyVal.ref 0), ("roles", PyVal.ref 1)]⟩).2 ≠ 0
      ∧ readRef
          (User.groupsProp ⟨[[PyVal.str "g1"], [PyVal.str "admin"]]⟩
            ⟨[("groups", PyVal.ref 0), ("roles", PyVal.ref 1)]⟩).1
          (User.groupsProp ⟨[[PyVal.str "g1"], [PyVal.str "admin"]]⟩
            ⟨[("groups", PyVal.ref 0), ("roles", PyVal.ref 1)]⟩).2
        = readRef ⟨[[PyVal.str "g1"], [PyVal.str "admin"]]⟩ 0)
    ∧ readRef (User.groupsProp ⟨[[PyVal.str "g1"], [PyVal.str "admin"]]⟩
        ⟨[("username", PyVal.str "alice")]⟩).1
        (User.groupsProp ⟨[[PyVal.str "g1"], [PyVal.str "admin"]]⟩
          ⟨[("username", PyVal.str "alice")]⟩).2 = []
    ∧ readSetVal
        (setAdd ⟨[[PyVal.str "g1"], [PyVal.str "admin"]]⟩ 1 (PyVal.str "qa"))
        (User.roles ⟨[("groups", PyVal.ref 0), ("roles", PyVal.ref 1)]⟩)
      = readRef ⟨[[PyVal.str "g1"], [PyVal.str "admin"]]⟩ 1 ++ [PyVal.str "qa"] := by
  have h1 := (user_groups_fresh_roles_shared.1
    ⟨[[PyVal.str "g1"], [PyVal.str "admin"]]⟩
    ⟨[("groups", PyVal.ref 0), ("roles", PyVal.ref 1)]⟩ 0 rfl (by decide))
  have h2 := (user_groups_fresh_roles_shared.2.1
    ⟨[[PyVal.str "g1"], [PyVal.str "admin"]]⟩
    ⟨[("username", PyVal.str "alice")]⟩ rfl)
  have h3 := (user_groups_fresh_roles_shared.2.2
    ⟨[[PyVal.str "g1"], [PyVal.str "admin"]]⟩
    ⟨[("groups", PyVal.ref 0), ("roles", PyVal.ref 1)]⟩ 1 (PyVal.str "qa")
    rfl (by decide) rfl)
  exact ⟨⟨h1.1, h1.2.1⟩, h2, h3.2⟩

/-- Embedding of `RawUserAndMetadata` (source lines 514-552): the decoded
"get user" payload. -/
structure RawUserAndMetadata where
  raw_data : List (String × PyVal)

/-- Embedding of the `RawUserAndMetadata.user` property (source line 530):
`User(**self._raw_data.get('user'))`. Keyword-splatting builds a new dictionary
for the new `User`, but its values — in particular any set references — are
shared with the metadata's own raw data. -/
def RawUserAndMetadata.user (m : RawUserAndMetadata) : User :=
  ⟨match dlookup "user" m.raw_data with
    | some (.dict kvs) => kvs
    | _ => []⟩

/-- C6: code-bug demonstration. For a metadata object whose decoded user holds
its roles set at heap address 0, every `.user` access returns a `User` whose
`roles` is the same set object (address 0): adding a role through the first
returned copy changes what the second returned copy — and the metadata object
itself — subsequently reads, contradicting the claimed independence (and the
source's own docstring at lines 528-529). -/
theorem user_metadata_shared_roles_bug :
    User.roles (RawUserAndMetadata.user
      ⟨[("user", PyVal.dict [("username", PyVal.str "alice"),
          ("roles", PyVal.ref 0)])]⟩) = PyVal.ref 0
    ∧ readSetVal (setAdd ⟨[[PyVal.str "admin"]]⟩ 0 (PyVal.str "cluster_admin"))
        (User.roles (RawUserAndMetadata.user
          ⟨[("user", PyVal.dict [("username", PyVal.str "alice"),
              ("roles", PyVal.ref 0)])]⟩))
      ≠ readSetVal ⟨[[PyVal.str "admin"]]⟩
        (User.roles (RawUserAndMetadata.user
          ⟨[("user", PyVal.dict [("username", PyVal.str "alice"),
              ("roles", PyVal.ref 0)])]⟩)) := by
  refine ⟨rfl, ?_⟩
  intro hcontr
  have h2 : ([PyVal.str "admin", PyVal.str "cluster_admin"] : List PyVal)
      = [PyVal.str "admin"] := hcontr
  exact absurd (congrArg List.length h2) (by decide)

/-- Does `pat` occur at the very start of `s`? Helper for the substring test. -/
def listStarts (pat s : List Char) : Bool :=
  match pat, s with
  | [], _ => true
  | _ :: _, [] => false
  | p :: ps, c :: cs => p = c && listStarts ps cs

/-- Does `pat` occur contiguously anywhere inside `s`? -/
def listSub (pat s : List Char) : Bool :=
  match s with
  | [] => listStarts pat []
  | c :: cs => listStarts pat (c :: cs) || listSub pat cs

/-- Embedding of Python's substring test `pat in s`. -/
def strContainsSub (s pat : String) : Bool :=
  listSub pat.toList s.toList

/-- The fault kinds visible to callers of `UserManager` operations:
`GroupNotFoundException` (source lines 15-16), `UserNotFoundException`
(source lines 19-20), or the untouched generic `HTTPException` carrying its
response text. -/
inductive MgmtFault where
  | groupNotFound
  | userNotFound
  | http (text : String)
  deriving DecidableEq

/-- Embedding of `UserErrorHandler.mapping` (source lines 23-28): the ordered
substring-to-fault table registered for `HTTPException`. -/
def UserErrorHandler.mapping : List (String × MgmtFault) :=
  [("Unknown group", MgmtFault.groupNotFound),
   ("Unknown user", MgmtFault.userNotFound)]

/-- Modelled from the spec: `ErrorMapper.wrap` (couchbase/exceptions.py, not
under src/) re-raises a generic HTTP fault as the first fault kind of the
mapping table whose trigger text occurs as a substring of the response text,
and lets the fault propagate unchanged when no trigger matches (spec §4.4
failure signaling and §7). The `@UserErrorHandler.wrap` decorator (source
line 31) applies this classification to every `UserManager` operation. -/
def classifyHttpFault (text : String) : MgmtFault :=
  match UserErrorHandler.mapping.find? (fun p => strContainsSub text p.1) with
  | some p => p.2
  | none => .http text

/-- C4 counterexample: a response text containing both trigger substrings is
classified as `GroupNotFoundException`, because the mapping table lists
`Unknown group` first — not as `UserNotFoundException` as the claim, read
universally, requires for any text containing `Unknown user`. -/
theorem classify_fault_cex :
    strContainsSub "Unknown user: member of Unknown group" "Unknown user" = true
    ∧ classifyHttpFault "Unknown user: member of Unknown group"
      ≠ MgmtFault.userNotFound :=
  ⟨by decide, by decide⟩

/-- C4 (amended): a generic HTTP fault whose response text contains
`Unknown group` is re-raised as `GroupNotFoundException`; one whose text
contains `Unknown user` but not `Unknown group` is re-raised as
`UserNotFoundException`; any other HTTP fault propagates unchanged as the
generic fault. -/
theorem classify_fault (text : String) :
    (strContainsSub text "Unknown group" = true
      → classifyHttpFault text = .groupNotFound)
    ∧ (strContainsSub text "Unknown user" = true
      → strContainsSub text "Unknown group" = false
      → classifyHttpFault text = .userNotFound)
    ∧ (strContainsSub text "Unknown user" = false
      → strContainsSub text "Unknown group" = false
      → classifyHttpFault text = .http text) := by
  refine ⟨?_, ?_, ?_⟩
  · intro h1
    simp [classifyHttpFault, UserErrorHandler.mapping, List.find?, h1]
  · intro h1 h2
    simp [classifyHttpFault, UserErrorHandler.mapping, List.find?, h1, h2]
  · intro h1 h2
    simp [classifyHttpFault, UserErrorHandler.mapping, List.find?, h1, h2]

/-- C4 witness: the classification at the spec's `drop_user("ghost")`
scenario — response text containing `Unknown user` — and at a plain server
error text matching no trigger. -/
theorem classify_fault_witness :
    classifyHttpFault "Unknown user ghost" = MgmtFault.userNotFound
    ∧ classifyHttpFault "Internal Server Error"
      = MgmtFault.http "Internal Server Error" :=
  ⟨(classify_fault "Unknown user ghost").2.1 (by decide) (by decide),
   (classify_fault "Internal Server Error").2.2 (by decide) (by decide)⟩

/-- The error kinds a Python-level slip can raise during decoding. -/
inductive PyErr where
  | typeError
  | keyError
  deriving DecidableEq

/-- Embedding of the `RoleAndOrigins` constructor exactly as written in the
source (lines 414-417): `__init__` accepts no parameter besides `self`, so
applying the class to a payload element — as `effective_roles_and_origins`
does through `map` — raises `TypeError`. -/
def roleAndOriginsNew (_arg : PyVal) : Except PyErr Unit :=
  .error .typeError

/-- Embedding of the `RawUserAndMetadata.effective_roles_and_origins` property
(source lines 538-542):
`list(map(RoleAndOrigins, self._raw_data.get('effective_roles_and_origins')))`.
Mapping over `None` (an absent key) or over a non-list also raises
`TypeError`. -/
def RawUserAndMetadata.effective_roles_and_origins (m : RawUserAndMetadata) :
    Except PyErr (List Unit) :=
  match dlookup "effective_roles_and_origins" m.raw_data with
  | some (.list xs) => xs.mapM roleAndOriginsNew
  | _ => .error .typeError

/-- C7: code-bug demonstration. On a decoded payload carrying one role with no
`origins` field, `effective_roles_and_origins` raises `TypeError` (the
`RoleAndOrigins` constructor takes no argument) instead of yielding one entry
with a single synthesized origin of type `user`, the behavior the claim — and
the source's own implementation note at lines 72-78 — requires. -/
theorem effective_roles_and_origins_bug :
    RawUserAndMetadata.effective_roles_and_origins
      ⟨[("effective_roles_and_origins",
          PyVal.list [PyVal.dict [("role", PyVal.str "admin")]])]⟩
      = .error .typeError := by
  rfl

/-- Embedding of `Group` (source lines 555-598): the server-side identifier
`name` is held apart from the remaining raw wire fields (source lines
564-566). -/
structure Group where
  name : String
  raw_json : List (String × PyVal)
  deriving Inhabited

/-- Embedding of `Group.from_json` (source lines 581-584): pop the wire key
`id` as the group name and construct the group from the remaining payload; a
payload without an `id` key raises `KeyError`. A payload whose `id` is not a
string is outside the embedding and also maps to the error case. -/
def Group.from_json (p : PyVal) : Except PyErr Group :=
  match p with
  | .dict kvs =>
      match dlookup "id" kvs with
      | some (.str name) => .ok ⟨name, kvs.filter (fun kv => kv.1 ≠ "id")⟩
      | _ => .error .keyError
  | _ => .error .typeError

/-- A generic transport-level HTTP fault: status code plus response text. -/
structure HTTPFault where
  status : Nat
  text : String
  deriving DecidableEq

/-- A fault surfaced by `get_all_groups`: a propagated transport fault or a
decode fault for a malformed payload element. -/
inductive OpFault where
  | http (f : HTTPFault)
  | decodeErr (e : PyErr)
  deriving DecidableEq

/-- Embedding of `UserManager.get_all_groups` (source lines 226-241) composed
with its `@NotSupportedWrapper.a_404_means_not_supported` decorator (source
line 226). The transport collaborator either raises an HTTP fault or returns
the decoded JSON list; the decorator is modelled from the spec
(couchbase/exceptions.py is not under src/): a not-found (404) fault yields an
empty sequence, any other fault propagates unchanged (spec §4.4, get_all_groups
row). -/
def get_all_groups (resp : Except HTTPFault (List PyVal)) :
    Except OpFault (List Group) :=
  match resp with
  | .error f => if f.status = 404 then .ok [] else .error (.http f)
  | .ok xs =>
      match xs.mapM Group.from_json with
      | .ok gs => .ok gs
      | .error e => .error (.decodeErr e)

theorem mapM_except_ok {α β ε : Type} (f : α → Except ε β) :
    ∀ (xs : List α) (gs : List β), xs.mapM f = .ok gs →
      gs.length = xs.length
      ∧ ∀ i (hi : i < xs.length) (hg : i < gs.length),
          f (xs.get ⟨i, hi⟩) = .ok (gs.get ⟨i, hg⟩) := by
  intro xs
  induction xs with
  | nil =>
    intro gs h
    have h2 : (Except.ok ([] : List β) : Except ε (List β)) = .ok gs := h
    cases h2
    exact ⟨rfl, fun i hi => absurd hi (by simp)⟩
  | cons a l ih =>
    intro gs h
    rw [List.mapM_cons] at h
    cases hfa : f a with
    | error e =>
      rw [hfa] at h
      simp [Bind.bind, Except.bind] at h
    | ok b =>
      rw [hfa] at h
      cases hl : l.mapM f with
      | error e =>
        rw [hl] at h
        simp [Bind.bind, Except.bind, pure, Except.pure] at h
      | ok bs =>
        rw [hl] at h
        simp only [Bind.bind, Except.bind, pure, Except.pure] at h
        have hgs : gs = b :: bs := by
          cases h
          rfl
        subst hgs
        obtain ⟨hlen, hpt⟩ := ih bs hl
        refine ⟨by simp [hlen], ?_⟩
        intro i hi hg
        cases i with
        | zero => simpa using hfa
        | succ j =>
          have hj : j < l.length := by simpa using hi
          have hj2 : j < bs.length := by simpa using hg
          simpa using hpt j hj hj2

/-- C5: when the transport reports a fault with status 404 for the
groups-listing endpoint, `get_all_groups` returns the empty sequence instead
of raising; any other fault propagates unchanged as the generic fault; and
whenever it returns a sequence for a transport-successful response, that
sequence holds exactly one decoded `Group` per payload element, in server
order. -/
theorem get_all_groups_spec :
    (∀ f : HTTPFault, f.status = 404 → get_all_groups (.error f) = .ok [])
    ∧ (∀ f : HTTPFault, f.status ≠ 404
        → get_all_groups (.error f) = .error (.http f))
    ∧ (∀ (xs : List PyVal) (gs : List Group),
        get_all_groups (.ok xs) = .ok gs →
          gs.length = xs.length
          ∧ ∀ i (hi : i < xs.length) (hg : i < gs.length),
              Group.from_json (xs.get ⟨i, hi⟩) = .ok (gs.get ⟨i, hg⟩)) := by
  refine ⟨?_, ?_, ?_⟩
  · intro f hf
    simp [get_all_groups, hf]
  · intro f hf
    simp [get_all_groups, hf]
  · intro xs gs h
    have hm : xs.mapM Group.from_json = .ok gs := by
      revert h
      simp only [get_all_groups]
      cases hmm : xs.mapM Group.from_json with
      | ok gs' => intro h; cases h; rfl
      | error e => intro h; cases h
    exact mapM_except_ok Group.from_json xs gs hm

/-- C5 witness: a 404 transport fault yields the empty sequence, a 500 fault
propagates, and a two-element payload decodes to a two-element group list
pointwise. -/
theorem get_all_groups_spec_witness :
    get_all_groups (.error ⟨404, "Object Not Found"⟩) = .ok []
    ∧ get_all_groups (.error ⟨500, "Internal Server Error"⟩)
      = .error (.http ⟨500, "Internal Server Error"⟩)
    ∧ (([⟨"g1", []⟩, ⟨"g2", [("description", PyVal.str "d")]⟩] : List Group).length
        = ([PyVal.dict [("id", PyVal.str "g1")],
            PyVal.dict [("id", PyVal.str "g2"), ("description", PyVal.str "d")]]
           : List PyVal).length) :=
  ⟨get_all_groups_spec.1 ⟨404, "Object Not Found"⟩ rfl,
   get_all_groups_spec.2.1 ⟨500, "Internal Server Error"⟩ (by decide),
   (get_all_groups_spec.2.2
     [PyVal.dict [("id", PyVal.str "g1")],
      PyVal.dict [("id", PyVal.str "g2"), ("description", PyVal.str "d")]]
     [⟨"g1", []⟩, ⟨"g2", [("description", PyVal.str "d")]⟩] rfl).1⟩

/-- Test for the embedded Python `None`. -/
def isPyNone : PyVal → Bool
  | .pnone => true
  | _ => false

/-- Drop the entries whose value is `None`: a key bound to `None` counts as
not provided (spec §4.3). -/
def dropNones (m : List (String × PyVal)) : List (String × PyVal) :=
  m.filter (fun kv => !isPyNone kv.2)

/-- The per-entry override applied by `dictUpdate`: an entry of the base
dictionary keeps its key and takes the updating dictionary's value for that
key when one exists. -/
def updEntry (upd : List (String × PyVal)) (kv : String × PyVal) :
    String × PyVal :=
  match dlookup kv.1 upd with
  | some v => (kv.1, v)
  | none => kv

/-- Python `dict.update` semantics on association lists: entries of `upd`
override same-key entries of `base` in place, and entries with keys new to
`base` are appended. -/
def dictUpdate (base upd : List (String × PyVal)) : List (String × PyVal) :=
  base.map (updEntry upd) ++ upd.filter (fun kv => kv.1 ∉ dkeys base)

/-- Modelled from the spec: `forward_args` (couchbase/options.py, not under
src/) is the option composer of §4.3: the options blocks are applied in
order, each later block overriding keys of earlier ones, keyword arguments
override every block, and a key bound to `None` in a source counts as not
provided there, so a key that is `None` or absent in every source does not
appear in the composed parameter mapping at all. -/
def forward_args (kwargs : List (String × PyVal))
    (blocks : List (List (String × PyVal))) : List (String × PyVal) :=
  dictUpdate ((blocks.map dropNones).foldl dictUpdate []) (dropNones kwargs)

/-- The key `k` is never bound to a non-`None` value in the source `m` (it is
absent, or every binding of it is `None`). -/
def noneProvided (m : List (String × PyVal)) (k : String) : Prop :=
  ∀ v, (k, v) ∈ m → isPyNone v = true

theorem updEntry_fst (upd : List (String × PyVal)) (kv : String × PyVal) :
    (updEntry upd kv).1 = kv.1 := by
  unfold updEntry
  cases dlookup kv.1 upd <;> rfl

theorem updEntry_snd (upd : List (String × PyVal)) (kv : String × PyVal) :
    (updEntry upd kv).2 = (dlookup kv.1 upd).getD kv.2 := by
  unfold updEntry
  cases dlookup kv.1 upd <;> rfl

theorem dlookup_append (k : String) (xs ys : List (String × PyVal)) :
    dlookup k (xs ++ ys) = (dlookup k xs).or (dlookup k ys) := by
  induction xs with
  | nil => simp [dlookup]
  | cons kv rest ih =>
    simp only [List.cons_append, dlookup]
    split
    · rfl
    · exact ih

theorem dlookup_filter_keep (p : String × PyVal → Bool) (k : String) (v : PyVal)
    (m : List (String × PyVal)) (hm : dlookup k m = some v)
    (hp : p (k, v) = true) :
    dlookup k (m.filter p) = some v := by
  induction m with
  | nil => simp [dlookup] at hm
  | cons kv rest ih =>
    rw [dlookup] at hm
    rw [List.filter_cons]
    split at hm
    · rename_i hk
      obtain ⟨k1, v1⟩ := kv
      simp only at hk
      cases hm
      subst hk
      rw [if_pos hp, dlookup, if_pos rfl]
    · rename_i hk
      split
      · rw [dlookup, if_neg hk]
        exact ih hm
      · exact ih hm

theorem not_mem_dkeys_filter_none (p : String × PyVal → Bool) (k : String)
    (m : List (String × PyVal)) (hp : ∀ v, (k, v) ∈ m → p (k, v) = false) :
    k ∉ dkeys (m.filter p) := by
  intro hmem
  simp only [dkeys, List.mem_map, List.mem_filter] at hmem
  obtain ⟨⟨k1, v1⟩, ⟨hin, hpv⟩, hfst⟩ := hmem
  simp only at hfst
  subst hfst
  rw [hp v1 hin] at hpv
  cases hpv

theorem dkeys_map_updEntry (base upd : List (String × PyVal)) :
    dkeys (base.map (updEntry upd)) = dkeys base := by
  unfold dkeys
  rw [List.map_map]
  congr 1
  funext kv
  exact updEntry_fst upd kv

theorem dlookup_map_updEntry (base upd : List (String × PyVal)) (k : String) :
    dlookup k (base.map (updEntry upd))
      = (dlookup k base).map (fun w => (dlookup k upd).getD w) := by
  induction base with
  | nil => simp [dlookup]
  | cons kv rest ih =>
    simp only [List.map_cons, dlookup, updEntry_fst]
    by_cases hk : kv.1 = k
    · rw [if_pos hk, if_pos hk, updEntry_snd, hk]
      cases hu : dlookup k upd <;> simp
    · rw [if_neg hk, if_neg hk]
      exact ih

theorem dlookup_filter_not_mem (base upd : List (String × PyVal)) (k : String)
    (hb : k ∉ dkeys base) :
    dlookup k (upd.filter (fun kv => kv.1 ∉ dkeys base)) = dlookup k upd := by
  induction upd with
  | nil => rfl
  | cons kv rest ih =>
    rw [List.filter_cons]
    by_cases hk : kv.1 = k
    · rw [if_pos (by simp only [hk, decide_eq_true_eq]; exact hb)]
      simp only [dlookup, if_pos hk]
    · split
      · simp only [dlookup, if_neg hk]
        exact ih
      · simp only [dlookup, if_neg hk]
        exact ih

theorem dkeys_dictUpdate_sub (base upd : List (String × PyVal)) (k : String)
    (h : k ∈ dkeys (dictUpdate base upd)) :
    k ∈ dkeys base ∨ k ∈ dkeys upd := by
  have hsplit : dkeys (dictUpdate base upd)
      = dkeys (base.map (updEntry upd))
        ++ dkeys (upd.filter (fun kv => kv.1 ∉ dkeys base)) := by
    simp [dictUpdate, dkeys]
  rw [hsplit, List.mem_append, dkeys_map_updEntry] at h
  rcases h with h | h
  · exact Or.inl h
  · right
    simp only [dkeys, List.mem_map, List.mem_filter] at h
    obtain ⟨kv, ⟨hkv, _⟩, hk⟩ := h
    exact List.mem_map.mpr ⟨kv, hkv, hk⟩

theorem dlookup_dictUpdate (base upd : List (String × PyVal)) (k : String) :
    dlookup k (dictUpdate base upd) = (dlookup k upd).or (dlookup k base) := by
  rw [dictUpdate, dlookup_append, dlookup_map_updEntry]
  by_cases hb : k ∈ dkeys base
  · obtain ⟨w, hw⟩ :=
      Option.isSome_iff_exists.mp ((dlookup_isSome_iff k base).mpr hb)
    rw [hw]
    cases hu : dlookup k upd <;> simp [hu, Option.or]
  · have hbase : dlookup k base = none := (dlookup_eq_none_iff k base).mpr hb
    rw [hbase, dlookup_filter_not_mem base upd k hb]
    cases hu : dlookup k upd <;> simp [Option.or]

theorem not_mem_dkeys_dropNones (m : List (String × PyVal)) (k : String)
    (h : noneProvided m k) : k ∉ dkeys (dropNones m) := by
  apply not_mem_dkeys_filter_none
  intro v hv
  simp [h v hv]

theorem not_mem_foldl_dictUpdate (k : String) :
    ∀ (blocks : List (List (String × PyVal))) (acc : List (String × PyVal)),
      (∀ b ∈ blocks, noneProvided b k) → k ∉ dkeys acc →
      k ∉ dkeys ((blocks.map dropNones).foldl dictUpdate acc)
  | [], acc, _, hacc => by simpa using hacc
  | b :: bs, acc, hb, hacc => by
      simp only [List.map_cons, List.foldl_cons]
      apply not_mem_foldl_dictUpdate k bs
      · intro b2 h2
        exact hb b2 (List.mem_cons_of_mem _ h2)
      · intro hmem
        rcases dkeys_dictUpdate_sub acc (dropNones b) k hmem with h | h
        · exact hacc h
        · exact not_mem_dkeys_dropNones b k (hb b (List.mem_cons_self _ _)) h

/-- C3: in the composed parameter mapping handed to the transport, a keyword
argument bound to a non-`None` value wins over every options-block value for
the same key, and a key that is `None` or absent in the keyword arguments and
in every options block does not appear in the outgoing parameters at all. -/
theorem forward_args_spec :
    (∀ (kwargs : List (String × PyVal)) (blocks : List (List (String × PyVal)))
        (k : String) (v : PyVal),
      dlookup k kwargs = some v → isPyNone v = false →
        dlookup k (forward_args kwargs blocks) = some v)
    ∧ (∀ (kwargs : List (String × PyVal)) (blocks : List (List (String × PyVal)))
        (k : String),
      noneProvided kwargs k → (∀ b ∈ blocks, noneProvided b k) →
        k ∉ dkeys (forward_args kwargs blocks)) := by
  constructor
  · intro kwargs blocks k v hv hnn
    rw [forward_args, dlookup_dictUpdate]
    have hkeep : dlookup k (dropNones kwargs) = some v :=
      dlookup_filter_keep _ k v kwargs hv (by simp [hnn])
    rw [hkeep]
    rfl
  · intro kwargs blocks k hkw hb hmem
    rw [forward_args] at hmem
    rcases dkeys_dictUpdate_sub _ _ k hmem with h | h
    · exact not_mem_foldl_dictUpdate k blocks [] hb (by simp [dkeys]) h
    · exact not_mem_dkeys_dropNones kwargs k hkw h

/-- C3 witness: the spec's §8 scenario — an options block with `timeout = 5`
overridden by the keyword `timeout = 10`, and a `timeout` bound to `None`
everywhere being dropped from the composed mapping. -/
theorem forward_args_spec_witness :
    dlookup "timeout" (forward_args [("timeout", PyVal.num 10)]
      [[("timeout", PyVal.num 5)]]) = some (PyVal.num 10)
    ∧ "timeout" ∉ dkeys (forward_args [("timeout", PyVal.pnone)]
      [[("timeout", PyVal.pnone)]]) :=
  ⟨forward_args_spec.1 [("timeout", PyVal.num 10)] [[("timeout", PyVal.num 5)]]
      "timeout" (PyVal.num 10) rfl rfl,
   forward_args_spec.2 [("timeout", PyVal.pnone)] [[("timeout", PyVal.pnone)]]
      "timeout"
      (fun v hv => by
        simp only [List.mem_singleton, Prod.mk.injEq] at hv
        rw [hv.2]
        rfl)
      (fun b hb => by
        simp only [List.mem_singleton] at hb
        subst hb
        intro v hv
        simp only [List.mem_singleton, Prod.mk.injEq] at hv
        rw [hv.2]
        rfl)⟩

/-- Python truthiness on the embedded values. A set reference is treated as
truthy; set objects occur only in the `User` heap model, never in group raw
data. -/
def pyTruthy : PyVal → Bool
  | .pnone => false
  | .str s => !(s == "")
  | .num n => !(n == 0)
  | .ref _ => true
  | .list xs => !xs.isEmpty
  | .dict kvs => !kvs.isEmpty

/-- Uppercase hexadecimal digit for a value below 16. -/
def hexDigitChar (n : Nat) : Char :=
  if n < 10 then Char.ofNat (48 + n) else Char.ofNat (55 + n)

/-- UTF-8 byte sequence of a Unicode code point. -/
def utf8Bytes (n : Nat) : List Nat :=
  if n < 128 then [n]
  else if n < 2048 then [192 + n / 64, 128 + n % 64]
  else if n < 65536 then [224 + n / 4096, 128 + (n / 64) % 64, 128 + n % 64]
  else [240 + n / 262144, 128 + (n / 4096) % 64, 128 + (n / 64) % 64,
        128 + n % 64]

/-- Characters `urllib.parse.quote` leaves unescaped with its default `safe`
setting: unreserved characters plus the slash. -/
def quoteSafeChar (c : Char) : Bool :=
  c.isAlphanum || c = '-' || c = '.' || c = '_' || c = '~' || c = '/'

/-- Percent-escape of one byte. -/
def pctEncByte (b : Nat) : List Char :=
  ['%', hexDigitChar (b / 16), hexDigitChar (b % 16)]

/-- Percent-escape of one character. -/
def quoteChar (c : Char) : List Char :=
  if quoteSafeChar c then [c] else ((utf8Bytes c.toNat).map pctEncByte).flatten

/-- Modelled from the spec: `ulp.quote` is `urllib.parse.quote` from the
Python standard library, outside this repository: percent-escape every byte
of the UTF-8 encoding of the string except the unescaped characters. -/
def pyQuote (s : String) : String :=
  String.mk ((s.toList.map quoteChar).flatten)

/-- String payload of an embedded value; on the intended path the elements of
a stored roles list are strings produced by the roles setter. -/
def pyStrOf : PyVal → String
  | .str s => s
  | _ => ""

/-- Embedding of `Group.roles` setter semantics (source lines 577-579): the
raw `roles` field becomes the list of the roles' string encodings
(`list(map(Admin._role_to_str, value))`). -/
def Group.setRoles (g : Group) (roles : List RawRole) : Group :=
  ⟨g.name, dset g.raw_json "roles"
    (.list (roles.map (fun r => .str (roleToStr r))))⟩

/-- Embedding of `','.join(map(ulp.quote, value))` (source line 589) on the
stored roles value; iterating a non-list value is outside the embedding. -/
def joinQuotedRoles : PyVal → PyVal
  | .list xs => .str (String.intercalate "," (xs.map (fun x => pyQuote (pyStrOf x))))
  | _ => .str ""

/-- The per-entry rewrite of `result['roles'] = ','.join(...)`
(source line 589): the entry at the `roles` key takes the joined quoted value,
every other entry is untouched. -/
def joinRolesEntry (kv : String × PyVal) : String × PyVal :=
  if kv.1 = "roles" then (kv.1, joinQuotedRoles kv.2) else kv

/-- Embedding of `Group.as_dict` (source lines 586-592): keep only the truthy
raw fields; when a `roles` field survives the filter, replace its value by the
comma-separated join of the percent-quoted role strings, otherwise bind
`roles` to the empty list. -/
def Group.as_dict (g : Group) : List (String × PyVal) :=
  if (dlookup "roles" (g.raw_json.filter (fun kv => pyTruthy kv.2))).isSome then
    (g.raw_json.filter (fun kv => pyTruthy kv.2)).map joinRolesEntry
  else
    g.raw_json.filter (fun kv => pyTruthy kv.2) ++ [("roles", PyVal.list [])]

theorem joinRolesEntry_fst (kv : String × PyVal) :
    (joinRolesEntry kv).1 = kv.1 := by
  unfold joinRolesEntry
  split <;> rfl

theorem dlookup_map_setAt (m : List (String × PyVal)) (k : String) (v : PyVal) :
    dlookup k (m.map (fun kv => if kv.1 = k then (kv.1, v) else kv))
      = (dlookup k m).map (fun _ => v) := by
  induction m with
  | nil => rfl
  | cons kv rest ih =>
    simp only [List.map_cons, dlookup]
    by_cases hk : kv.1 = k
    · simp [hk]
    · simp only [if_neg hk]
      exact ih

theorem dlookup_map_joinRolesEntry (m : List (String × PyVal)) :
    dlookup "roles" (m.map joinRolesEntry)
      = (dlookup "roles" m).map joinQuotedRoles := by
  induction m with
  | nil => rfl
  | cons kv rest ih =>
    simp only [List.map_cons, dlookup, joinRolesEntry_fst]
    by_cases hk : kv.1 = "roles"
    · simp only [if_pos hk, joinRolesEntry, if_pos hk]
      rfl
    · simp only [if_neg hk, joinRolesEntry, if_neg hk]
      exact ih

theorem dlookup_dset_self (m : List (String × PyVal)) (k : String) (v : PyVal) :
    dlookup k (dset m k v) = some v := by
  unfold dset
  split <;> rename_i h
  · rw [dlookup_map_setAt]
    obtain ⟨w, hw⟩ :=
      Option.isSome_iff_exists.mp ((dlookup_isSome_iff k m).mpr h)
    rw [hw]
    rfl
  · rw [dlookup_append, (dlookup_eq_none_iff k m).mpr h]
    simp [dlookup]

theorem mem_dset_self_eq (m : List (String × PyVal)) (k : String) (w v : PyVal)
    (h : (k, v) ∈ dset m k w) : v = w := by
  unfold dset at h
  split at h <;> rename_i hk
  · obtain ⟨kv, hkv, heq⟩ := List.mem_map.mp h
    by_cases h1 : kv.1 = k
    · rw [if_pos h1] at heq
      exact (Prod.mk.injEq _ _ _ _ ▸ heq).2.symm
    · rw [if_neg h1] at heq
      rw [heq] at h1
      simp at h1
  · rcases List.mem_append.mp h with h2 | h2
    · exact absurd (List.mem_map.mpr ⟨(k, v), h2, rfl⟩ : k ∈ dkeys m) hk
    · have h3 := List.mem_singleton.mp h2
      exact (Prod.mk.injEq _ _ _ _ ▸ h3).2

theorem mem_dset_ne (m : List (String × PyVal)) (k k' : String) (w v : PyVal)
    (hne : k' ≠ k) : (k', v) ∈ dset m k w ↔ (k', v) ∈ m := by
  unfold dset
  split <;> rename_i hk
  · constructor
    · intro h
      obtain ⟨kv, hkv, heq⟩ := List.mem_map.mp h
      by_cases h1 : kv.1 = k
      · rw [if_pos h1] at heq
        have : kv.1 = k' := (Prod.mk.injEq _ _ _ _ ▸ heq).1
        exact absurd (this ▸ h1 : k' = k) hne
      · rw [if_neg h1] at heq
        exact heq ▸ hkv
    · intro h
      refine List.mem_map.mpr ⟨(k', v), h, ?_⟩
      simp [hne]
  · rw [List.mem_append]
    constructor
    · rintro (h | h)
      · exact h
      · exact absurd (Prod.mk.injEq _ _ _ _ ▸ List.mem_singleton.mp h).1 hne
    · exact Or.inl

/-- C8: the form dictionary `upsert_group` builds from `g.as_dict()` omits
every falsy raw field, never contains a `name` or `id` key, and binds `roles`
to the comma-separated list of percent-escaped bracket-grammar role strings —
bound to the empty list (not omitted) when the group has no roles left after
the truthiness filter. -/
theorem upsert_group_form_spec (name : String) (raw : List (String × PyVal))
    (roles : List RawRole)
    (hname : "name" ∉ dkeys raw) (hid : "id" ∉ dkeys raw) :
    ("name" ∉ dkeys (Group.as_dict (Group.setRoles ⟨name, raw⟩ roles))
      ∧ "id" ∉ dkeys (Group.as_dict (Group.setRoles ⟨name, raw⟩ roles)))
    ∧ (∀ k v, (k, v) ∈ Group.as_dict (Group.setRoles ⟨name, raw⟩ roles) →
        k ≠ "roles" → ((k, v) ∈ raw ∧ pyTruthy v = true))
    ∧ (roles ≠ [] →
        dlookup "roles" (Group.as_dict (Group.setRoles ⟨name, raw⟩ roles))
          = some (.str (String.intercalate ","
              (roles.map (fun r => pyQuote (roleToStr r))))))
    ∧ (roles = [] →
        dlookup "roles" (Group.as_dict (Group.setRoles ⟨name, raw⟩ roles))
          = some (.list [])) := by
  have hraw : Group.setRoles ⟨name, raw⟩ roles
      = ⟨name, dset raw "roles"
          (PyVal.list (roles.map (fun r => PyVal.str (roleToStr r))))⟩ := rfl
  rw [hraw]
  set L : PyVal := PyVal.list (roles.map (fun r => PyVal.str (roleToStr r)))
    with hLdef
  have hmemOther : ∀ k v,
      (k, v) ∈ Group.as_dict ⟨name, dset raw "roles" L⟩ → k ≠ "roles" →
        ((k, v) ∈ raw ∧ pyTruthy v = true) := by
    intro k v hmem hkne
    have hfromFilter : ∀ kv0 : String × PyVal,
        kv0 ∈ (dset raw "roles" L).filter (fun kv => pyTruthy kv.2) →
        kv0 = (k, v) → ((k, v) ∈ raw ∧ pyTruthy v = true) := by
      intro kv0 hkv0 heq
      rw [heq] at hkv0
      have h3 := List.mem_filter.mp hkv0
      exact ⟨(mem_dset_ne raw "roles" k L v hkne).mp h3.1, by simpa using h3.2⟩
    unfold Group.as_dict at hmem
    split at hmem
    · obtain ⟨kv0, hkv0, heq⟩ := List.mem_map.mp hmem
      have hkey : kv0.1 = k := by rw [← joinRolesEntry_fst kv0, heq]
      have hkv0ne : kv0.1 ≠ "roles" := by rw [hkey]; exact hkne
      refine hfromFilter kv0 (by simpa using hkv0) ?_
      unfold joinRolesEntry at heq
      rw [if_neg hkv0ne] at heq
      exact heq
    · rcases List.mem_append.mp hmem with h2 | h2
      · exact hfromFilter (k, v) (by simpa using h2) rfl
      · exact absurd (Prod.mk.injEq _ _ _ _ ▸ List.mem_singleton.mp h2).1 hkne
  have hkeys : ∀ k, k ∈ dkeys (Group.as_dict ⟨name, dset raw "roles" L⟩) →
      k ∈ dkeys raw ∨ k = "roles" := by
    intro k hk
    by_cases hkne : k = "roles"
    · exact Or.inr hkne
    · obtain ⟨kv, hkv, hfst⟩ := List.mem_map.mp hk
      have hkv2 : (k, kv.2) ∈ Group.as_dict ⟨name, dset raw "roles" L⟩ := by
        rw [← hfst]
        simpa using hkv
      exact Or.inl (List.mem_map.mpr
        ⟨(k, kv.2), (hmemOther k kv.2 hkv2 hkne).1, rfl⟩)
  refine ⟨⟨?_, ?_⟩, hmemOther, ?_, ?_⟩
  · intro hmem
    rcases hkeys "name" hmem with h | h
    · exact hname h
    · exact absurd h (by decide)
  · intro hmem
    rcases hkeys "id" hmem with h | h
    · exact hid h
    · exact absurd h (by decide)
  · intro hne
    have hLt : pyTruthy L = true := by
      rw [hLdef]
      simp [pyTruthy, hne]
    have hfl : dlookup "roles"
        ((dset raw "roles" L).filter (fun kv => pyTruthy kv.2)) = some L :=
      dlookup_filter_keep _ _ _ _ (dlookup_dset_self raw "roles" L)
        (by simpa using hLt)
    unfold Group.as_dict
    simp only [hfl, Option.isSome_some, if_true, dlookup_map_joinRolesEntry,
      Option.map_some]
    rw [hLdef]
    simp only [Option.map, joinQuotedRoles, List.map_map]
    rfl
  · intro hre
    have hnone : dlookup "roles"
        ((dset raw "roles" L).filter (fun kv => pyTruthy kv.2)) = none := by
      rw [dlookup_eq_none_iff]
      apply not_mem_dkeys_filter_none
      intro v hv
      have hvL : v = L := mem_dset_self_eq raw "roles" L v hv
      rw [hvL, hLdef, hre]
      rfl
    unfold Group.as_dict
    simp only [hnone, Option.isSome_none, Bool.false_eq_true, if_false,
      dlookup_append, hnone]
    simp [dlookup]

/-- C8 witness: the spec's §8 end-to-end scenario — a group with roles
`admin` and `bucket_full_access[b1]` encodes its roles as
`admin,bucket_full_access%5Bb1%5D` with no `name` or `id` key, an empty
description is omitted, and a group with no roles binds `roles` to the empty
list. -/
theorem upsert_group_form_spec_witness :
    "name" ∉ dkeys (Group.as_dict (Group.setRoles
      ⟨"g1", [("description", PyVal.str ""), ("ldap_group_ref", PyVal.str "dn1")]⟩
      [⟨"admin", none⟩, ⟨"bucket_full_access", some "b1"⟩]))
    ∧ dlookup "roles" (Group.as_dict (Group.setRoles
        ⟨"g1", [("description", PyVal.str ""), ("ldap_group_ref", PyVal.str "dn1")]⟩
        [⟨"admin", none⟩, ⟨"bucket_full_access", some "b1"⟩]))
      = some (.str "admin,bucket_full_access%5Bb1%5D")
    ∧ dlookup "roles" (Group.as_dict (Group.setRoles
        ⟨"g2", [("description", PyVal.str "d")]⟩ []))
      = some (.list []) := by
  have h1 := upsert_group_form_spec "g1"
    [("description", PyVal.str ""), ("ldap_group_ref", PyVal.str "dn1")]
    [⟨"admin", none⟩, ⟨"bucket_full_access", some "b1"⟩]
    (by decide) (by decide)
  have h2 := upsert_group_form_spec "g2" [("description", PyVal.str "d")] []
    (by decide) (by decide)
  refine ⟨h1.1.1, ?_, h2.2.2.2 rfl⟩
  rw [h1.2.2.1 (by decide)]
  rfl

end CbUsers
